import Mathlib

/-!
Verification of the accessibility-agent test-run orchestrator implemented in
`.github/actions/accessibility-agent/src/index.ts`.  Each definition below is
a shallow embedding of the TypeScript it names (line numbers refer to that
file).  External effects are passed in as explicit parameters: the
configuration file's text content and the outcome of `JSON.parse` stand in
for file I/O, a `SubprocessOutcome` for the agent subprocess, an
`Option HttpOutcome` for each `fetch` exchange (`none` = transport error /
thrown), and a `jsonParse` function for `JSON.parse` of the agent payload.
Character-level string work (trim, split, the brace scanner) is embedded on
`List Char`; untyped JavaScript field values are embedded by `JsonValue`
with JS truthiness.
-/

namespace A11y

/-- One accessibility check to perform: the `TestConfig` interface
(`index.ts:7-10`). -/
structure TestCase where
  url : String
  goal : String
deriving Repr, DecidableEq, Inhabited

/-- One action taken by the external agent during a test: the `TestStep`
interface (`index.ts:12-17`). -/
structure TestStepRecord where
  stepNumber : Nat
  action : String
  observation : String
  thought : Option String
deriving Repr, DecidableEq, Inhabited

/-- An accessibility issue found by the external agent
(`index.ts:26-31`). -/
structure ViolationRecord where
  type : String
  message : String
  element : String
  severity : String
deriving Repr, DecidableEq, Inhabited

/-- An untyped JavaScript/JSON scalar value as the executor can receive one
from the parsed agent payload (`index.ts:229-240`): `undefined` (an absent
field), `null`, a boolean, a number, a string, or an (opaque) array or
object. -/
inductive JsonValue where
  | vundefined
  | vnull
  | vbool (b : Bool)
  | vnum (n : Int)
  | vstr (s : String)
  | varr
  | vobj
deriving Repr, DecidableEq, Inhabited

/-- JavaScript truthiness of a `JsonValue`: `undefined`, `null`, `false`,
`0` and `""` are falsy; everything else (including any array or object) is
truthy. -/
def jsTruthy : JsonValue → Bool
  | .vundefined => false
  | .vnull => false
  | .vbool b => b
  | .vnum n => decide (¬ n = 0)
  | .vstr s => decide (¬ s.data = [])
  | .varr => true
  | .vobj => true

/-- The JavaScript `a || b` operator on values: `a` when truthy, else
`b`. -/
def jsOr (v dflt : JsonValue) : JsonValue :=
  if jsTruthy v then v else dflt

/-- Result of one test case: the `TestResult` interface (`index.ts:19-33`).
`success` records the truthiness of the stored `parsed.success || false`
value — the only aspect of it the orchestrator observes
(`if (result.success)` at `index.ts:356`, `filter(r => r.success)` at
`index.ts:388`).  `reason` and `error` keep the stored JavaScript value,
since the code's `|| null` defaulting can leave any truthy value there. -/
structure TestResult where
  url : String
  goal : String
  success : Bool
  reason : JsonValue
  error : JsonValue
  steps : List TestStepRecord
  violations : List ViolationRecord
  duration : Nat
deriving Repr, DecidableEq, Inhabited

/-- The ways the configuration-loading code (`index.ts:284-304`) can throw
into the outer catch (`index.ts:422`): the `TypeError` from `goal.trim()`
when a kept text line has no `|` (`index.ts:296-297`), the `SyntaxError`
from `JSON.parse` on malformed JSON (`index.ts:288`), and the explicit
`No tests found in configuration file` error (`index.ts:302-303`). -/
inductive ConfigError where
  | typeError
  | malformedJson
  | emptyConfig
deriving Repr, DecidableEq

/-- Strip leading and trailing whitespace from a character list: the
embedding of `String.prototype.trim()` (`index.ts:293`, `297`). -/
def trimChars (s : List Char) : List Char :=
  ((s.dropWhile Char.isWhitespace).reverse.dropWhile Char.isWhitespace).reverse

/-- Split a character list at the FIRST occurrence of `sep`, returning the
two sides; `none` when `sep` does not occur. -/
def splitFirst (sep : Char) : List Char → Option (List Char × List Char)
  | [] => none
  | c :: rest =>
    if c = sep then some ([], rest)
    else
      match splitFirst sep rest with
      | some (u, g) => some (c :: u, g)
      | none => none

/-- Split a character list on every occurrence of `sep`: the embedding of
`content.split('\n')` (`index.ts:292`). -/
def splitOnChar (sep : Char) : List Char → List (List Char)
  | [] => [[]]
  | c :: rest =>
    match splitOnChar sep rest with
    | [] => [[]]
    | g :: gs => if c = sep then [] :: g :: gs else (c :: g) :: gs

/-- The embedding of `line.split(sep, 2)` followed by the destructuring
`const [url, goal] = ...` (`index.ts:296`): the first component is the text
before the first `sep` (or the whole line when `sep` is absent), the second
is the text between the first and second `sep` — `none` when there is no
`sep` at all, in which case `goal` is `undefined`. -/
def splitTwo (sep : Char) (s : List Char) : List Char × Option (List Char) :=
  match splitFirst sep s with
  | none => (s, none)
  | some (u, rest) =>
    match splitFirst sep rest with
    | none => (u, some rest)
    | some (g, _) => (u, some g)

/-- The lines of a text configuration that survive
`.map(line => line.trim()).filter(line => line && !line.startsWith('#'))`
(`index.ts:292-294`): each line trimmed, blank lines and lines starting
with `#` removed. -/
def keptLines (content : String) : List (List Char) :=
  ((splitOnChar '\n' content.data).map trimChars).filter
    (fun l => decide (¬ l = [] ∧ ¬ l.head? = some '#'))

/-- The embedding of the `.map` at `index.ts:295-298` over the kept lines:
each line is split by `split('|', 2)`; when the line has no `|`, `goal` is
`undefined` and `goal.trim()` throws a `TypeError` which aborts the whole
map (the run fails via the outer catch); otherwise the trimmed pair becomes
a `TestCase`. -/
def mapLines : List (List Char) → Except ConfigError (List TestCase)
  | [] => .ok []
  | l :: ls =>
    match splitTwo '|' l with
    | (_, none) => .error .typeError
    | (u, some g) =>
      match mapLines ls with
      | .error e => .error e
      | .ok ts => .ok ({ url := String.mk (trimChars u),
                         goal := String.mk (trimChars g) } :: ts)

/-- The final `.filter(t => t.url && t.goal)` (`index.ts:299`): entries
whose url or goal is the empty string (falsy) are silently dropped. -/
def keepNonEmptyCases (ts : List TestCase) : List TestCase :=
  ts.filter (fun t => decide (¬ t.url.data = [] ∧ ¬ t.goal.data = []))

/-- What `tests` holds after the loader: either a list of entries, or a
well-formed non-array JSON value, which has no numeric `.length` and
therefore slips through the `tests.length === 0` check unvalidated
(`index.ts:288`, `302`). -/
inductive LoadedConfig where
  | entries (es : List TestCase)
  | nonArray
deriving Repr, DecidableEq

/-- The outcome of `JSON.parse(configContent)` (`index.ts:288`): a thrown
`SyntaxError`, a JSON array read as `TestConfig[]` (no per-entry validation
exists in the code), or a well-formed non-array JSON value. -/
inductive JsonParseOutcome where
  | throws
  | array (es : List TestCase)
  | nonArray
deriving Repr, DecidableEq

/-- The text-format branch of the loader (`index.ts:291-299`) followed by
the emptiness check (`index.ts:302-304`): split into lines, trim, drop
blank/`#` lines, map through `split('|', 2)` (which can throw), drop
entries with empty url or goal, and fail when nothing remains. -/
def loadTextConfig (content : String) : Except ConfigError LoadedConfig :=
  match mapLines (keptLines content) with
  | .error e => .error e
  | .ok ts =>
    if (keepNonEmptyCases ts).isEmpty then .error .emptyConfig
    else .ok (.entries (keepNonEmptyCases ts))

/-- The JSON branch of the loader (`index.ts:287-288`) followed by the
emptiness check (`index.ts:302-304`): `JSON.parse`'s value is used as-is —
array entries are accepted verbatim with no per-entry validation, a parse
error is fatal, an empty array fails the length check, and a non-array
value passes it (its `.length` is `undefined`, never `=== 0`). -/
def loadJsonConfig : JsonParseOutcome → Except ConfigError LoadedConfig
  | .throws => .error .malformedJson
  | .array es => if es.isEmpty then .error .emptyConfig
      else .ok (.entries es)
  | .nonArray => .ok .nonArray

/-- Whether the configuration file path ends in `.json`: the embedding of
`testConfigPath.endsWith('.json')` (`index.ts:287`), checked on the path's
character list (its last five characters, reversed). -/
def hasJsonExt (path : String) : Bool :=
  decide (path.data.reverse.take 5 = ['n', 'o', 's', 'j', '.'])

/-- The configuration loader (`index.ts:284-304`): the format is selected
solely by the file path's `.json` extension; the file's text content and
the `JSON.parse` outcome are passed in explicitly since file I/O and the
JavaScript JSON parser are outside the embedding. -/
def loadConfig (path : String) (jsonParsed : JsonParseOutcome)
    (content : String) : Except ConfigError LoadedConfig :=
  if hasJsonExt path then loadJsonConfig jsonParsed
  else loadTextConfig content

/-- The literal anchor substring `{"url"` searched for in subprocess stdout
(`index.ts:210`), as a character list. -/
def anchorChars : List Char := ['{', '"', 'u', 'r', 'l', '"']

/-- The embedding of `stdout.indexOf('{"url"')` + `substring(jsonStart)`
(`index.ts:210-212`): locate the first occurrence of the anchor and return
the suffix of the text starting at it. -/
def findAnchor : List Char → Option (List Char)
  | [] => none
  | c :: rest =>
    if (c :: rest).take 6 = anchorChars then some (c :: rest)
    else findAnchor rest

/-- The embedding of the brace-counting loop (`index.ts:213-228`): scan
forward from the anchor, incrementing on `{` and decrementing on `}`, and
return the scanned text up to and including the brace where the count
returns to zero (`none` when the text ends first). -/
def takeBalanced : List Char → Nat → Option (List Char)
  | [], _ => none
  | c :: rest, d =>
    if c = '{' then
      match takeBalanced rest (d + 1) with
      | some t => some (c :: t)
      | none => none
    else if c = '}' then
      if d = 1 then some [c]
      else
        match takeBalanced rest (d - 1) with
        | some t => some (c :: t)
        | none => none
    else
      match takeBalanced rest d with
      | some t => some (c :: t)
      | none => none

/-- The JSON-object extraction from subprocess stdout (`index.ts:209-228`):
the first occurrence of `{"url"` followed by the balanced-brace scan to the
matching closing brace. -/
def extractJson (stdout : List Char) : Option (List Char) :=
  match findAnchor stdout with
  | none => none
  | some suffix => takeBalanced suffix 0

/-- Net brace count of one character: `{` opens, `}` closes. -/
def braceDelta (c : Char) : Int :=
  if c = '{' then 1 else if c = '}' then -1 else 0

/-- Net brace count of a character list. -/
def braceCount (s : List Char) : Int :=
  (s.map braceDelta).sum

/-- A well-formed (balanced-brace) JSON object as the extractor understands
it: it starts with `{`, its braces balance out exactly at its end, and every
nonempty proper initial segment still has an open brace pending. -/
def properBraced (obj : List Char) : Prop :=
  obj.head? = some '{' ∧ braceCount obj = 0 ∧
    ∀ n, n < obj.length → 0 < n → 0 < braceCount (obj.take n)

instance (obj : List Char) : Decidable (properBraced obj) := by
  unfold properBraced
  infer_instance

/-- What one run of the agent subprocess produced, as the executor sees it
(`index.ts:185-204`): the captured standard-output text, the captured
error-stream text, and the exit code, which the code ignores (the catch at
`index.ts:202-204` swallows non-zero exits). -/
structure SubprocessOutcome where
  stdout : List Char
  stderr : String
  exitCode : Int
deriving Repr, DecidableEq, Inhabited

/-- The fields of the agent's parsed JSON payload that the executor reads
(`index.ts:234-238`).  `success`, `reason` and `error` are untyped
JavaScript values; `steps` and `violations` are either a present array of
records or absent/falsy (`none`) — a JavaScript array (even an empty one)
is always truthy, so `x || []` keeps any present array and replaces an
absent or falsy value with `[]`, which `Option.getD []` reproduces. -/
structure ParsedResult where
  success : JsonValue
  reason : JsonValue
  error : JsonValue
  steps : Option (List TestStepRecord)
  violations : Option (List ViolationRecord)
deriving Repr, DecidableEq, Inhabited

/-- The fixed fallback error message of the executor (`index.ts:253`). -/
def fallbackError : String := "Could not parse agent output"

/-- The TestResult the executor returns when no JSON object was found in
stdout or parsing threw (`index.ts:248-257`): `success = false`, `error` =
`stderr || 'Could not parse agent output'` (the captured error-stream text
when non-empty, the fixed fallback otherwise), null reason, empty steps and
violations. -/
def parseFailureResult (tc : TestCase) (out : SubprocessOutcome)
    (duration : Nat) : TestResult :=
  { url := tc.url, goal := tc.goal, success := false,
    reason := JsonValue.vnull,
    error := JsonValue.vstr
      (if out.stderr.data = [] then fallbackError else out.stderr),
    steps := [], violations := [], duration := duration }

/-- The single-test executor (`index.ts:140-258`).  It extracts the JSON
payload from stdout with `extractJson`; `JSON.parse` of the payload is
external, so it is passed in as a function returning `none` when parsing
throws.  On success the TestResult fields are defaulted by JavaScript
truthiness (`index.ts:234-238`): `parsed.success || false`,
`parsed.reason || null`, `parsed.error || null`, `parsed.steps || []`,
`parsed.violations || []`.  Every failure mode resolves to
`parseFailureResult`; the function is total, as the code never throws past
this boundary. -/
def runSingleTest (tc : TestCase) (out : SubprocessOutcome)
    (jsonParse : List Char → Option ParsedResult) (duration : Nat) :
    TestResult :=
  match extractJson out.stdout with
  | none => parseFailureResult tc out duration
  | some payload =>
    match jsonParse payload with
    | none => parseFailureResult tc out duration
    | some p =>
      { url := tc.url, goal := tc.goal,
        success := jsTruthy p.success,
        reason := jsOr p.reason JsonValue.vnull,
        error := jsOr p.error JsonValue.vnull,
        steps := p.steps.getD [],
        violations := p.violations.getD [],
        duration := duration }

/-- The sequential orchestration loop (`index.ts:329-370`).  `exec i tc`
stands for running the single-test executor on test `i` (the executor never
throws, so it is a total function of the zero-based index and the test
case).  Each result is pushed in order; on a failed result the monotonic
`hasFailure` flag is set, and when continue-on-failure is `false` the loop
breaks immediately, so remaining tests are absent from the results.
Returns (results, hasFailure). -/
def runLoop : List TestCase → Nat → Bool → (Nat → TestCase → TestResult) →
    List TestResult × Bool
  | [], _, _, _ => ([], false)
  | tc :: rest, i, cof, exec =>
    if (exec i tc).success then
      (exec i tc :: (runLoop rest (i + 1) cof exec).1,
       (runLoop rest (i + 1) cof exec).2)
    else if cof then
      (exec i tc :: (runLoop rest (i + 1) cof exec).1, true)
    else ([exec i tc], true)

/-- `results.filter(r => r.success).length` (`index.ts:388`). -/
def passedCount (results : List TestResult) : Nat :=
  (results.filter (fun r => r.success)).length

/-- The final process status the orchestrator signals to CI:
`core.setFailed` with a message, or success (`index.ts:417-420`). -/
inductive RunStatus where
  | ok
  | failed (msg : String)
deriving Repr, DecidableEq

/-- The failure signalling after the loop (`index.ts:387-389`, `417-420`):
`core.setFailed` iff `hasFailure`, with the message built from
`failedTests = totalTests - passedTests` over the results actually
produced. -/
def finalStatus (results : List TestResult) (hasFailure : Bool) : RunStatus :=
  if hasFailure then
    .failed (toString (results.length - passedCount results) ++ " out of " ++
      toString results.length ++ " accessibility tests failed")
  else .ok

/-- What one dashboard `fetch` exchange produced: `ok` is `response.ok`,
`testRunId` the field extracted from the JSON response body (`none` when
the body lacks it — the code then returns `undefined`, which the caller
only ever tests for truthiness).  A transport error or a throw anywhere in
the `try` is modelled as the absence of any response
(`Option HttpOutcome = none` at the call sites). -/
structure HttpOutcome where
  ok : Bool
  testRunId : Option String
deriving Repr, DecidableEq, Inhabited

/-- The embedding of `dashboardUrl.replace(/\/$/, '')` (`index.ts:128`,
`167`, `325`): strip one trailing slash when present. -/
def stripTrailingSlash (u : String) : String :=
  if u.data.getLast? = some '/' then String.mk u.data.dropLast else u

/-- The endpoint URL of the live-run start call (`index.ts:65-67`):
`dashboardUrl.endsWith('/') ? url + 'api/live/start' :
url + '/api/live/start'`. -/
def startEndpoint (dashboardUrl : String) : String :=
  if dashboardUrl.data.getLast? = some '/' then
    dashboardUrl ++ "api/live/start"
  else dashboardUrl ++ "/api/live/start"

/-- The endpoint URL of the live-run completion call (`index.ts:114-116`),
built exactly like `startEndpoint`. -/
def completeEndpoint (dashboardUrl : String) : String :=
  if dashboardUrl.data.getLast? = some '/' then
    dashboardUrl ++ "api/live/complete"
  else dashboardUrl ++ "/api/live/complete"

/-- The constructed viewer URL
`${dashboardUrl.replace(/\/$/, '')}/runs/${testRunId}`
(`index.ts:128`). -/
def viewerUrl (dashboardUrl testRunId : String) : String :=
  stripTrailingSlash dashboardUrl ++ "/runs/" ++ testRunId

/-- `startLiveRun` (`index.ts:46-89`).  The `fetch` exchange is external,
so its outcome is passed in (`none` = transport error or any throw in the
`try`, caught at `index.ts:85-88`).  On `response.ok` the `testRunId` field
of the response is returned; on any HTTP-level failure or transport error
the function logs a warning and returns `none`; it never throws. -/
def startLiveRun (http : Option HttpOutcome) : Option String :=
  match http with
  | none => none
  | some resp => if resp.ok then resp.testRunId else none

/-- `completeLiveRun` (`index.ts:91-138`).  On `response.ok` it returns the
constructed viewer URL; on any HTTP-level failure or transport error it
logs a warning and returns `none`; it never throws. -/
def completeLiveRun (dashboardUrl testRunId : String)
    (http : Option HttpOutcome) : Option String :=
  match http with
  | none => none
  | some resp => if resp.ok then some (viewerUrl dashboardUrl testRunId)
    else none

/-- The machine-readable outputs and exit status of one whole run
(`index.ts:387-420`), excluding the float-formatted `pass-rate` string,
whose IEEE-754 `toFixed(1)` arithmetic is outside the embedding. -/
structure RunOutputs where
  totalTests : Nat
  passedTests : Nat
  failedTests : Nat
  dashboardUrlOut : Option String
  status : RunStatus
deriving Repr, DecidableEq

/-- The orchestration pipeline after setup (`index.ts:319-420`).  When both
a dashboard URL and an API key are configured (truthy — `none` embeds the
empty/unset input) the live run is started, and a `none` result disables
live tracking without aborting (`index.ts:321-327`, `376`); the loop runs
the tests in sequence; when live tracking is active the completion call's
return becomes the optional `dashboard-url` output (`index.ts:375-384`,
`413-415`); the summary outputs and the exit status are computed from the
results actually produced. -/
def runPipeline (tests : List TestCase) (cof : Bool)
    (exec : Nat → TestCase → TestResult)
    (dashboardUrl apiKey : Option String)
    (startHttp completeHttp : Option HttpOutcome) : RunOutputs :=
  let live : Option String :=
    match dashboardUrl, apiKey with
    | some _, some _ => startLiveRun startHttp
    | _, _ => none
  let p := runLoop tests 0 cof exec
  let resultsUrl : Option String :=
    match live, dashboardUrl with
    | some id, some u => completeLiveRun u id completeHttp
    | _, _ => none
  { totalTests := p.1.length,
    passedTests := passedCount p.1,
    failedTests := p.1.length - passedCount p.1,
    dashboardUrlOut := resultsUrl,
    status := finalStatus p.1 p.2 }

/-! ## Theorems -/

theorem mem_of_mem_trimChars {c : Char} {s : List Char}
    (h : c ∈ trimChars s) : c ∈ s := by
  unfold trimChars at h
  rw [List.mem_reverse] at h
  have h2 := List.Sublist.mem h (List.dropWhile_sublist Char.isWhitespace)
  rw [List.mem_reverse] at h2
  exact List.Sublist.mem h2 (List.dropWhile_sublist Char.isWhitespace)

theorem splitFirst_eq_none_of_not_mem {sep : Char} {s : List Char}
    (h : ¬ sep ∈ s) : splitFirst sep s = none := by
  induction s with
  | nil => rfl
  | cons c rest ih =>
    simp only [List.mem_cons, not_or] at h
    unfold splitFirst
    rw [if_neg (fun hc => h.1 hc.symm), ih h.2]

theorem mem_of_splitFirst_some {sep : Char} {s u g : List Char}
    (h : splitFirst sep s = some (u, g)) : sep ∈ s := by
  induction s generalizing u g with
  | nil => cases h
  | cons c rest ih =>
    unfold splitFirst at h
    by_cases hc : c = sep
    · subst hc
      exact List.mem_cons_self c rest
    · rw [if_neg hc] at h
      cases heq : splitFirst sep rest with
      | none => rw [heq] at h; cases h
      | some p =>
        obtain ⟨u2, g2⟩ := p
        exact List.mem_cons_of_mem c (ih heq)

theorem splitFirst_ne_none_of_mem {sep : Char} {s : List Char}
    (h : sep ∈ s) : splitFirst sep s ≠ none := by
  induction s with
  | nil => cases h
  | cons c rest ih =>
    unfold splitFirst
    by_cases hc : c = sep
    · rw [if_pos hc]
      simp
    · rw [if_neg hc]
      have hmem : sep ∈ rest := by
        rcases List.mem_cons.mp h with he | hm
        · exact absurd he.symm hc
        · exact hm
      cases heq : splitFirst sep rest with
      | none => exact absurd heq (ih hmem)
      | some p =>
        obtain ⟨u, g⟩ := p
        simp

theorem splitTwo_snd_none_iff {sep : Char} {s : List Char} :
    (splitTwo sep s).2 = none ↔ ¬ sep ∈ s := by
  unfold splitTwo
  cases heq : splitFirst sep s with
  | none =>
    simp only [heq]
    constructor
    · intro _ hmem
      exact splitFirst_ne_none_of_mem hmem heq
    · intro _
      trivial
  | some p =>
    obtain ⟨u, rest⟩ := p
    simp only [heq]
    have hmem : sep ∈ s := mem_of_splitFirst_some heq
    cases heq2 : splitFirst sep rest with
    | none =>
      simp only [heq2]
      simp [hmem]
    | some q =>
      obtain ⟨g, r⟩ := q
      simp only [heq2]
      simp [hmem]

theorem mapLines_error_iff (ls : List (List Char)) : ∀ (e : ConfigError),
    (mapLines ls = .error e ↔
      e = ConfigError.typeError ∧ ∃ l ∈ ls, ¬ '|' ∈ l) := by
  induction ls with
  | nil =>
    intro e
    constructor
    · intro h
      cases h
    · rintro ⟨_, l, hl, _⟩
      cases hl
  | cons l ls ih =>
    intro e
    cases heq : splitTwo '|' l with
    | mk u og =>
      cases og with
      | none =>
        have hno : ¬ '|' ∈ l := splitTwo_snd_none_iff.mp (by rw [heq])
        have hself : mapLines (l :: ls) = .error ConfigError.typeError := by
          simp only [mapLines, heq]
        constructor
        · intro h
          injection hself.symm.trans h with h2
          exact ⟨h2.symm, l, List.mem_cons_self _ _, hno⟩
        · rintro ⟨he, _⟩
          subst he
          exact hself
      | some g =>
        have hyes : '|' ∈ l := by
          by_contra hno
          have h2 := splitTwo_snd_none_iff.mpr hno
          rw [heq] at h2
          cases h2
        cases heq2 : mapLines ls with
        | error e2 =>
          have hself : mapLines (l :: ls) = .error e2 := by
            simp only [mapLines, heq, heq2]
          obtain ⟨he2, l2, hl2, hno2⟩ := (ih e2).mp heq2
          subst he2
          constructor
          · intro h
            injection hself.symm.trans h with h3
            exact ⟨h3.symm, l2, List.mem_cons_of_mem _ hl2, hno2⟩
          · rintro ⟨he, _⟩
            subst he
            exact hself
        | ok ts =>
          have hself : mapLines (l :: ls) =
              .ok ({ url := String.mk (trimChars u),
                     goal := String.mk (trimChars g) } :: ts) := by
            simp only [mapLines, heq, heq2]
          constructor
          · intro h
            cases hself.symm.trans h
          · rintro ⟨he, l3, hl3, hno3⟩
            rcases List.mem_cons.mp hl3 with h4 | h4
            · subst h4
              exact absurd hyes hno3
            · have h5 := (ih e).mpr ⟨he, l3, h4, hno3⟩
              rw [heq2] at h5
              cases h5

theorem mapLines_isOk_of_all_bar (ls : List (List Char))
    (h : ∀ l ∈ ls, '|' ∈ l) : ∃ ts, mapLines ls = .ok ts := by
  cases heq : mapLines ls with
  | ok ts => exact ⟨ts, rfl⟩
  | error e =>
    obtain ⟨_, l, hl, hno⟩ := (mapLines_error_iff ls e).mp heq
    exact absurd (h l hl) hno

theorem loadTextConfig_of_mapLines_error {content : String}
    {e : ConfigError} (h : mapLines (keptLines content) = .error e) :
    loadTextConfig content = .error e := by
  unfold loadTextConfig
  rw [h]

theorem loadTextConfig_of_mapLines_ok {content : String}
    {ts0 : List TestCase} (h : mapLines (keptLines content) = .ok ts0) :
    loadTextConfig content =
      if (keepNonEmptyCases ts0).isEmpty then .error ConfigError.emptyConfig
      else .ok (.entries (keepNonEmptyCases ts0)) := by
  unfold loadTextConfig
  rw [h]

theorem mem_keepNonEmptyCases {tc : TestCase} {ts : List TestCase}
    (h : tc ∈ keepNonEmptyCases ts) : tc.url ≠ "" ∧ tc.goal ≠ "" := by
  unfold keepNonEmptyCases at h
  have h2 := List.of_mem_filter h
  rw [decide_eq_true_eq] at h2
  exact ⟨fun he => h2.1 (by rw [he]), fun he => h2.2 (by rw [he])⟩

/-- Counterexample to C1 as stated: the text config `"a|b\nnosep"` contains
a kept line with no `|` separator; the code does not drop it silently — the
destructured `goal` is `undefined` and `goal.trim()` throws a `TypeError`
(`index.ts:296-297`) that aborts the load, and this hard failure is not the
empty-resulting-sequence one. -/
theorem claim_C1_counterexample :
    loadConfig "tests.txt" JsonParseOutcome.throws "a|b\nnosep" =
      .error ConfigError.typeError ∧
    ConfigError.typeError ≠ ConfigError.emptyConfig :=
  ⟨by rfl, by decide⟩

/-- **C1** (amended): for every text-format (non-.json) configuration file,
a line whose url or goal is empty after trimming is dropped silently
(`index.ts:299`), but a kept (non-blank, non-comment) line with no `|`
separator is NOT dropped: it raises a fatal `TypeError` via `goal.trim()`
on `undefined` (`index.ts:296-297`); the loader errors with that
`TypeError` exactly when some kept line lacks `|`, and on input whose kept
lines all contain `|`, the resulting sequence being empty is the only hard
failure. -/
theorem claim_C1_text_bad_lines (path : String) (j : JsonParseOutcome)
    (content : String) (hpath : hasJsonExt path = false) :
    (∀ ts, loadConfig path j content = .ok (.entries ts) →
      ∀ tc ∈ ts, tc.url ≠ "" ∧ tc.goal ≠ "") ∧
    (loadConfig path j content = .error ConfigError.typeError ↔
      ∃ l ∈ keptLines content, ¬ '|' ∈ l) ∧
    (∀ e, loadConfig path j content = .error e →
      e = ConfigError.typeError ∨ e = ConfigError.emptyConfig) ∧
    ((∀ l ∈ keptLines content, '|' ∈ l) →
      loadConfig path j content = .error ConfigError.emptyConfig ∨
      ∃ ts, loadConfig path j content = .ok (LoadedConfig.entries ts)) := by
  have hdisp : loadConfig path j content = loadTextConfig content := by
    unfold loadConfig
    rw [hpath]
    rfl
  rw [hdisp]
  refine ⟨?_, ?_, ?_, ?_⟩
  · intro ts hok tc htc
    cases heq : mapLines (keptLines content) with
    | error e =>
      rw [loadTextConfig_of_mapLines_error heq] at hok
      cases hok
    | ok ts0 =>
      rw [loadTextConfig_of_mapLines_ok heq] at hok
      split at hok
      · cases hok
      · injection hok with h2
        injection h2 with h3
        subst h3
        exact mem_keepNonEmptyCases htc
  · constructor
    · intro h
      cases heq : mapLines (keptLines content) with
      | error e =>
        rw [loadTextConfig_of_mapLines_error heq] at h
        injection h with h2
        subst h2
        exact ((mapLines_error_iff _ _).mp heq).2
      | ok ts0 =>
        rw [loadTextConfig_of_mapLines_ok heq] at h
        split at h
        · injection h with h2
          cases h2
        · cases h
    · rintro ⟨l, hl, hno⟩
      exact loadTextConfig_of_mapLines_error
        ((mapLines_error_iff _ _).mpr ⟨rfl, l, hl, hno⟩)
  · intro e he
    cases heq : mapLines (keptLines content) with
    | error e2 =>
      rw [loadTextConfig_of_mapLines_error heq] at he
      injection he with h2
      subst h2
      exact Or.inl ((mapLines_error_iff _ _).mp heq).1
    | ok ts0 =>
      rw [loadTextConfig_of_mapLines_ok heq] at he
      split at he
      · injection he with h2
        exact Or.inr h2.symm
      · cases he
  · intro hall
    obtain ⟨ts0, hts0⟩ := mapLines_isOk_of_all_bar _ hall
    rw [loadTextConfig_of_mapLines_ok hts0]
    split
    · exact Or.inl rfl
    · exact Or.inr ⟨_, rfl⟩

/-- Witness for C1 (amended): a text config whose kept lines all contain
`|`; the empty-url and empty-goal lines are dropped silently and the two
good lines survive in order. -/
theorem claim_C1_witness :
    hasJsonExt "tests.txt" = false ∧
    ((∀ ts, loadConfig "tests.txt" JsonParseOutcome.throws
        "a|b\n|x\ny|\nu|g" = .ok (.entries ts) →
      ∀ tc ∈ ts, tc.url ≠ "" ∧ tc.goal ≠ "") ∧
    (loadConfig "tests.txt" JsonParseOutcome.throws "a|b\n|x\ny|\nu|g" =
        .error ConfigError.typeError ↔
      ∃ l ∈ keptLines "a|b\n|x\ny|\nu|g", ¬ '|' ∈ l) ∧
    (∀ e, loadConfig "tests.txt" JsonParseOutcome.throws
        "a|b\n|x\ny|\nu|g" = .error e →
      e = ConfigError.typeError ∨ e = ConfigError.emptyConfig) ∧
    ((∀ l ∈ keptLines "a|b\n|x\ny|\nu|g", '|' ∈ l) →
      loadConfig "tests.txt" JsonParseOutcome.throws "a|b\n|x\ny|\nu|g" =
        .error ConfigError.emptyConfig ∨
      ∃ ts, loadConfig "tests.txt" JsonParseOutcome.throws
        "a|b\n|x\ny|\nu|g" = .ok (LoadedConfig.entries ts))) :=
  ⟨by decide, claim_C1_text_bad_lines "tests.txt" JsonParseOutcome.throws
    "a|b\n|x\ny|\nu|g" (by decide)⟩

theorem braceCount_nil : braceCount [] = 0 := rfl

theorem braceCount_cons (c : Char) (s : List Char) :
    braceCount (c :: s) = braceDelta c + braceCount s := by
  simp [braceCount]

theorem takeBalanced_append (rest : List Char) : ∀ (post : List Char) (d : Nat),
    0 < d → braceCount rest = -(d : Int) →
    (∀ n, n < rest.length → -(d : Int) < braceCount (rest.take n)) →
    takeBalanced (rest ++ post) d = some rest := by
  induction rest with
  | nil =>
    intro post d hd hsum _
    rw [braceCount_nil] at hsum
    omega
  | cons c tl ih =>
    intro post d hd hsum hpre
    rw [List.cons_append]
    unfold takeBalanced
    rw [braceCount_cons] at hsum
    by_cases hc : c = '{'
    · rw [if_pos hc]
      have hdel : braceDelta c = 1 := by rw [hc]; rfl
      rw [hdel] at hsum
      have hrec := ih post (d + 1) (by omega) (by push_cast; omega)
        (fun n hn => by
          have h2 := hpre (n + 1) (by simpa using hn)
          rw [List.take_succ_cons, braceCount_cons, hdel] at h2
          push_cast
          omega)
      rw [hrec]
    · rw [if_neg hc]
      by_cases hc2 : c = '}'
      · rw [if_pos hc2]
        have hdel : braceDelta c = -1 := by rw [hc2]; rfl
        rw [hdel] at hsum
        by_cases hd1 : d = 1
        · rw [if_pos hd1]
          have htl : tl = [] := by
            by_contra htl
            have hlen : 1 < (c :: tl).length := by
              cases tl with
              | nil => exact absurd rfl htl
              | cons a b => simp
            have h2 := hpre 1 hlen
            rw [hd1] at h2
            have : braceCount ((c :: tl).take 1) = -1 := by
              rw [List.take_succ_cons, List.take_zero, braceCount_cons, hdel,
                braceCount_nil]
              omega
            omega
          subst htl
          subst hc2
          rfl
        · rw [if_neg hd1]
          have hrec := ih post (d - 1) (by omega)
            (by
              have hcast : ((d - 1 : Nat) : Int) = (d : Int) - 1 := by omega
              rw [hcast]; omega)
            (fun n hn => by
              have h2 := hpre (n + 1) (by simpa using hn)
              rw [List.take_succ_cons, braceCount_cons, hdel] at h2
              have hcast : ((d - 1 : Nat) : Int) = (d : Int) - 1 := by omega
              rw [hcast]
              omega)
          rw [hrec]
      · rw [if_neg hc2]
        have hdel : braceDelta c = 0 := by
          unfold braceDelta
          rw [if_neg hc, if_neg hc2]
        rw [hdel] at hsum
        have hrec := ih post d hd (by omega)
          (fun n hn => by
            have h2 := hpre (n + 1) (by simpa using hn)
            rw [List.take_succ_cons, braceCount_cons, hdel] at h2
            omega)
        rw [hrec]

theorem findAnchor_append (pre : List Char) : ∀ (rest : List Char),
    (∀ k, k < pre.length → (((pre ++ rest).drop k).take 6) ≠ anchorChars) →
    rest.take 6 = anchorChars →
    findAnchor (pre ++ rest) = some rest := by
  induction pre with
  | nil =>
    intro rest _ hanch
    rw [List.nil_append]
    cases rest with
    | nil => cases hanch
    | cons c tl =>
      unfold findAnchor
      rw [if_pos hanch]
  | cons p ptl ih =>
    intro rest hfst hanch
    rw [List.cons_append]
    unfold findAnchor
    rw [if_neg ?hcond]
    case hcond =>
      have h0 := hfst 0 (by simp)
      simpa using h0
    exact ih rest
      (fun k hk => by
        have h1 := hfst (k + 1) (by simpa using hk)
        simpa using h1)
      hanch

theorem findAnchor_eq_none (s : List Char)
    (h : ∀ k, k < s.length → ((s.drop k).take 6) ≠ anchorChars) :
    findAnchor s = none := by
  induction s with
  | nil => rfl
  | cons c tl ih =>
    unfold findAnchor
    rw [if_neg (by simpa using h 0 (by simp))]
    exact ih (fun k hk => by simpa using h (k + 1) (by simpa using hk))

/-- **C2**: for every subprocess stdout that contains, anywhere between
arbitrary log noise, a well-formed (balanced-brace) JSON object beginning
with the literal substring `{"url"` — nested braces inside the payload
allowed — the extractor (first occurrence of `{"url"`, then a forward scan
counting balanced braces) recovers exactly that JSON object. -/
theorem claim_C2_extractor_recovers_object (pre obj post : List Char)
    (hanch : obj.take 6 = anchorChars)
    (hbal : properBraced obj)
    (hfirst : ∀ k, k < pre.length →
      (((pre ++ obj ++ post).drop k).take 6) ≠ anchorChars) :
    extractJson (pre ++ obj ++ post) = some obj := by
  obtain ⟨hhead, hsum, hpre⟩ := hbal
  have hlen : 6 ≤ obj.length := by
    have := congrArg List.length hanch
    simp [anchorChars] at this
    omega
  have hanch2 : (obj ++ post).take 6 = anchorChars := by
    rw [List.take_append_of_le_length hlen]
    exact hanch
  have hfa : findAnchor (pre ++ obj ++ post) = some (obj ++ post) := by
    rw [List.append_assoc]
    refine findAnchor_append pre (obj ++ post) ?_ hanch2
    intro k hk
    have := hfirst k hk
    rwa [List.append_assoc] at this
  unfold extractJson
  rw [hfa]
  cases obj with
  | nil => cases hhead
  | cons c body =>
    have hc : c = '{' := by
      simpa using hhead
    subst hc
    rw [List.cons_append]
    unfold takeBalanced
    rw [if_pos rfl]
    have hrec := takeBalanced_append body post 1 (by omega)
      (by
        rw [braceCount_cons] at hsum
        have : braceDelta '{' = 1 := rfl
        rw [this] at hsum
        push_cast
        omega)
      (fun n hn => by
        have h2 := hpre (n + 1) (by simpa using hn) (by omega)
        rw [List.take_succ_cons, braceCount_cons] at h2
        have : braceDelta '{' = 1 := rfl
        rw [this] at h2
        omega)
    rw [hrec]

/-- Witness for C2: the extractor applied to concrete stdout with log noise
before and after the payload and a nested object inside it. -/
theorem claim_C2_witness :
    ("\x7b\"url\":\x7b\x7d\x7d".data.take 6 = anchorChars) ∧
    properBraced "\x7b\"url\":\x7b\x7d\x7d".data ∧
    (∀ k, k < "log ".data.length →
      ((("log ".data ++ "\x7b\"url\":\x7b\x7d\x7d".data ++ " end".data).drop k).take 6)
        ≠ anchorChars) ∧
    extractJson ("log ".data ++ "\x7b\"url\":\x7b\x7d\x7d".data ++ " end".data)
      = some "\x7b\"url\":\x7b\x7d\x7d".data :=
  ⟨by decide, by decide, by decide,
    claim_C2_extractor_recovers_object "log ".data "\x7b\"url\":\x7b\x7d\x7d".data
      " end".data (by decide) (by decide) (by decide)⟩

/-- **C3**: the single-test executor always returns exactly one TestResult
(it is a total function in the embedding, as the code never throws past this
boundary); whenever stdout contains no `{"url"` substring, or no balanced
object is found (`extractJson` returns `none`), or JSON parsing throws
(`jsonParse` returns `none`), the returned TestResult has `success = false`,
a non-null `error` equal to the captured error-stream text when non-empty
and the fixed fallback message `Could not parse agent output` otherwise, and
empty steps and violations. -/
theorem claim_C3_executor_failure_shape (tc : TestCase)
    (out : SubprocessOutcome) (jsonParse : List Char → Option ParsedResult)
    (duration : Nat)
    (h : (∀ k, k < out.stdout.length →
            ((out.stdout.drop k).take 6) ≠ anchorChars) ∨
         extractJson out.stdout = none ∨
         (∀ payload, extractJson out.stdout = some payload →
            jsonParse payload = none)) :
    (runSingleTest tc out jsonParse duration).success = false ∧
    (runSingleTest tc out jsonParse duration).error ≠ JsonValue.vnull ∧
    (runSingleTest tc out jsonParse duration).error = JsonValue.vstr
      (if out.stderr.data = [] then fallbackError else out.stderr) ∧
    (runSingleTest tc out jsonParse duration).steps = [] ∧
    (runSingleTest tc out jsonParse duration).violations = [] := by
  have hres : runSingleTest tc out jsonParse duration =
      parseFailureResult tc out duration := by
    unfold runSingleTest
    rcases h with h | h | h
    · have hnone : extractJson out.stdout = none := by
        unfold extractJson
        rw [findAnchor_eq_none out.stdout h]
      rw [hnone]
    · rw [h]
    · cases heq : extractJson out.stdout with
      | none => rfl
      | some payload =>
        simp only [h payload heq]
  rw [hres]
  exact ⟨rfl, fun hx => JsonValue.noConfusion hx, rfl, rfl, rfl⟩

/-- Witness for C3: the executor applied to concrete stdout that contains no
`{"url"` anchor, with non-empty captured stderr. -/
theorem claim_C3_witness :
    extractJson "no json here".data = none ∧
    ((runSingleTest ⟨"u", "g"⟩ ⟨"no json here".data, "boom", 1⟩
        (fun _ => none) 5).success = false ∧
     (runSingleTest ⟨"u", "g"⟩ ⟨"no json here".data, "boom", 1⟩
        (fun _ => none) 5).error ≠ JsonValue.vnull ∧
     (runSingleTest ⟨"u", "g"⟩ ⟨"no json here".data, "boom", 1⟩
        (fun _ => none) 5).error = JsonValue.vstr
       (if ("boom" : String).data = [] then fallbackError else "boom") ∧
     (runSingleTest ⟨"u", "g"⟩ ⟨"no json here".data, "boom", 1⟩
        (fun _ => none) 5).steps = [] ∧
     (runSingleTest ⟨"u", "g"⟩ ⟨"no json here".data, "boom", 1⟩
        (fun _ => none) 5).violations = []) :=
  ⟨by decide,
    claim_C3_executor_failure_shape ⟨"u", "g"⟩ ⟨"no json here".data, "boom", 1⟩
      (fun _ => none) 5 (Or.inr (Or.inl (by decide)))⟩

theorem runLoop_length_le (tests : List TestCase) : ∀ (i0 : Nat) (cof : Bool)
    (exec : Nat → TestCase → TestResult),
    (runLoop tests i0 cof exec).1.length ≤ tests.length := by
  induction tests with
  | nil => intro i0 cof exec; simp [runLoop]
  | cons tc rest ih =>
    intro i0 cof exec
    unfold runLoop
    by_cases hs : (exec i0 tc).success
    · rw [if_pos hs]
      simpa using ih (i0 + 1) cof exec
    · rw [if_neg hs]
      by_cases hcof : cof
      · rw [if_pos hcof]
        simpa using ih (i0 + 1) cof exec
      · rw [if_neg hcof]
        simp

theorem runLoop_index (tests : List TestCase) : ∀ (i0 : Nat) (cof : Bool)
    (exec : Nat → TestCase → TestResult) (j : Nat) (tc : TestCase),
    tests[j]? = some tc → j < (runLoop tests i0 cof exec).1.length →
    (runLoop tests i0 cof exec).1[j]? = some (exec (i0 + j) tc) := by
  induction tests with
  | nil => intro i0 cof exec j tc htc _; simp at htc
  | cons tc0 rest ih =>
    intro i0 cof exec j tc htc hj
    unfold runLoop
    by_cases hs : (exec i0 tc0).success
    · rw [if_pos hs]
      cases j with
      | zero =>
        simp at htc
        subst htc
        simp
      | succ j =>
        rw [List.getElem?_cons_succ] at htc ⊢
        have hj2 : j < (runLoop rest (i0 + 1) cof exec).1.length := by
          unfold runLoop at hj
          rw [if_pos hs] at hj
          simpa using hj
        have := ih (i0 + 1) cof exec j tc htc hj2
        rw [this]
        congr 2
        omega
    · rw [if_neg hs]
      by_cases hcof : cof
      · rw [if_pos hcof]
        cases j with
        | zero =>
          simp at htc
          subst htc
          simp
        | succ j =>
          rw [List.getElem?_cons_succ] at htc ⊢
          have hj2 : j < (runLoop rest (i0 + 1) cof exec).1.length := by
            unfold runLoop at hj
            rw [if_neg hs, if_pos hcof] at hj
            simpa using hj
          have := ih (i0 + 1) cof exec j tc htc hj2
          rw [this]
          congr 2
          omega
      · rw [if_neg hcof]
        cases j with
        | zero =>
          simp at htc
          subst htc
          simp
        | succ j =>
          unfold runLoop at hj
          rw [if_neg hs, if_neg hcof] at hj
          simp at hj

theorem runLoop_trunc (tests : List TestCase) : ∀ (i0 : Nat) (cof : Bool)
    (exec : Nat → TestCase → TestResult),
    (runLoop tests i0 cof exec).1.length < tests.length →
    cof = false ∧ ∃ (j : Nat) (r : TestResult),
      (runLoop tests i0 cof exec).1[j]? = some r ∧ r.success = false := by
  induction tests with
  | nil => intro i0 cof exec h; simp [runLoop] at h
  | cons tc0 rest ih =>
    intro i0 cof exec h
    unfold runLoop at h ⊢
    by_cases hs : (exec i0 tc0).success
    · rw [if_pos hs] at h ⊢
      simp only [List.length_cons] at h
      have h2 : (runLoop rest (i0 + 1) cof exec).1.length < rest.length := by
        simpa using h
      obtain ⟨hcof, j, r, hget, hfail⟩ := ih (i0 + 1) cof exec h2
      exact ⟨hcof, j + 1, r, by simpa using hget, hfail⟩
    · rw [if_neg hs] at h ⊢
      by_cases hcof : cof
      · rw [if_pos hcof] at h ⊢
        have h2 : (runLoop rest (i0 + 1) cof exec).1.length < rest.length := by
          simpa using h
        obtain ⟨hcof2, _⟩ := ih (i0 + 1) cof exec h2
        exact absurd hcof2 (by simp [hcof])
      · rw [if_neg hcof] at h ⊢
        refine ⟨by simpa using hcof, 0, exec i0 tc0, by simp, ?_⟩
        simpa using hs

/-- **C4**: result `i` of the output sequence corresponds to test case `i`
of the configuration, in the same relative order; the results are a prefix
of the per-test results and the sequence is shorter than the configured
count only when continue-on-failure is false and some executed test failed
(after which no further results are appended). -/
theorem claim_C4_results_match_input_order (tests : List TestCase)
    (cof : Bool) (exec : Nat → TestCase → TestResult) :
    (runLoop tests 0 cof exec).1.length ≤ tests.length ∧
    (∀ j tc, tests[j]? = some tc → j < (runLoop tests 0 cof exec).1.length →
      (runLoop tests 0 cof exec).1[j]? = some (exec j tc)) ∧
    ((runLoop tests 0 cof exec).1.length < tests.length →
      cof = false ∧ ∃ (j : Nat) (r : TestResult),
        (runLoop tests 0 cof exec).1[j]? = some r ∧ r.success = false) := by
  refine ⟨runLoop_length_le tests 0 cof exec, ?_,
    runLoop_trunc tests 0 cof exec⟩
  intro j tc htc hj
  simpa using runLoop_index tests 0 cof exec j tc htc hj

/-- Witness for C4: two test cases, continue-on-failure false, an executor
that fails every test — the loop truncates after the first result. -/
theorem claim_C4_witness :
    (runLoop [⟨"u1", "g1"⟩, ⟨"u2", "g2"⟩] 0 false
      (fun i _ => ⟨"u", "g", false, JsonValue.vnull, JsonValue.vnull, [], [], i⟩)).1.length ≤
      ([⟨"u1", "g1"⟩, ⟨"u2", "g2"⟩] : List TestCase).length ∧
    (∀ j tc, ([⟨"u1", "g1"⟩, ⟨"u2", "g2"⟩] : List TestCase)[j]? = some tc →
      j < (runLoop [⟨"u1", "g1"⟩, ⟨"u2", "g2"⟩] 0 false
        (fun i _ => ⟨"u", "g", false, JsonValue.vnull, JsonValue.vnull, [], [], i⟩)).1.length →
      (runLoop [⟨"u1", "g1"⟩, ⟨"u2", "g2"⟩] 0 false
        (fun i _ => ⟨"u", "g", false, JsonValue.vnull, JsonValue.vnull, [], [], i⟩)).1[j]? =
        some ((fun i _ => (⟨"u", "g", false, JsonValue.vnull, JsonValue.vnull, [], [], i⟩ :
          TestResult)) j tc)) ∧
    ((runLoop [⟨"u1", "g1"⟩, ⟨"u2", "g2"⟩] 0 false
      (fun i _ => ⟨"u", "g", false, JsonValue.vnull, JsonValue.vnull, [], [], i⟩)).1.length <
      ([⟨"u1", "g1"⟩, ⟨"u2", "g2"⟩] : List TestCase).length →
      false = false ∧ ∃ (j : Nat) (r : TestResult),
        (runLoop [⟨"u1", "g1"⟩, ⟨"u2", "g2"⟩] 0 false
          (fun i _ => ⟨"u", "g", false, JsonValue.vnull, JsonValue.vnull, [], [], i⟩)).1[j]? =
          some r ∧ r.success = false) :=
  claim_C4_results_match_input_order [⟨"u1", "g1"⟩, ⟨"u2", "g2"⟩] false
    (fun i _ => ⟨"u", "g", false, JsonValue.vnull, JsonValue.vnull, [], [], i⟩)

theorem runLoop_flag_iff (tests : List TestCase) : ∀ (i0 : Nat) (cof : Bool)
    (exec : Nat → TestCase → TestResult),
    ((runLoop tests i0 cof exec).2 = true ↔
      ∃ r ∈ (runLoop tests i0 cof exec).1, r.success = false) := by
  induction tests with
  | nil => intro i0 cof exec; simp [runLoop]
  | cons tc0 rest ih =>
    intro i0 cof exec
    unfold runLoop
    by_cases hs : (exec i0 tc0).success
    · rw [if_pos hs]
      constructor
      · intro h
        obtain ⟨r, hr, hf⟩ := (ih (i0 + 1) cof exec).mp h
        exact ⟨r, List.mem_cons_of_mem _ hr, hf⟩
      · rintro ⟨r, hr, hf⟩
        rcases List.mem_cons.mp hr with heq | hmem
        · subst heq
          rw [hs] at hf
          cases hf
        · exact (ih (i0 + 1) cof exec).mpr ⟨r, hmem, hf⟩
    · rw [if_neg hs]
      have hfail : (exec i0 tc0).success = false := Bool.eq_false_iff.mpr hs
      by_cases hcof : cof
      · rw [if_pos hcof]
        exact iff_of_true rfl ⟨exec i0 tc0, List.mem_cons_self _ _, hfail⟩
      · rw [if_neg hcof]
        exact iff_of_true rfl ⟨exec i0 tc0, List.mem_cons_self _ _, hfail⟩

/-- **C5**: after the loop, the orchestrator signals a failed process status
iff at least one executed test produced `success = false`; the failure
message is `"<failed> out of <total> accessibility tests failed"` where the
total is the number of results actually produced and failed = total −
passed; otherwise the process status is ok. -/
theorem claim_C5_failure_status (tests : List TestCase) (cof : Bool)
    (exec : Nat → TestCase → TestResult) :
    (finalStatus (runLoop tests 0 cof exec).1 (runLoop tests 0 cof exec).2 ≠
        RunStatus.ok ↔
      ∃ r ∈ (runLoop tests 0 cof exec).1, r.success = false) ∧
    (∀ msg, finalStatus (runLoop tests 0 cof exec).1
        (runLoop tests 0 cof exec).2 = RunStatus.failed msg →
      msg = toString ((runLoop tests 0 cof exec).1.length -
          passedCount (runLoop tests 0 cof exec).1) ++ " out of " ++
        toString (runLoop tests 0 cof exec).1.length ++
        " accessibility tests failed") ∧
    (finalStatus (runLoop tests 0 cof exec).1 (runLoop tests 0 cof exec).2 =
        RunStatus.ok ↔
      ∀ r ∈ (runLoop tests 0 cof exec).1, r.success = true) := by
  have hiff := runLoop_flag_iff tests 0 cof exec
  unfold finalStatus
  cases hflag : (runLoop tests 0 cof exec).2 with
  | false =>
    rw [hflag] at hiff
    simp only [if_neg (by simp : ¬(false = true))]
    have hnone : ¬ ∃ r ∈ (runLoop tests 0 cof exec).1, r.success = false := by
      intro hex
      exact absurd (hiff.mpr hex) (by simp)
    refine ⟨?_, ?_, ?_⟩
    · constructor
      · intro h; exact absurd rfl h
      · intro hex; exact absurd hex hnone
    · intro msg h; cases h
    · constructor
      · intro _ r hr
        by_contra hr2
        exact hnone ⟨r, hr, Bool.eq_false_iff.mpr hr2⟩
      · intro _; trivial
  | true =>
    rw [hflag] at hiff
    simp only [if_pos rfl]
    have hex : ∃ r ∈ (runLoop tests 0 cof exec).1, r.success = false :=
      hiff.mp rfl
    refine ⟨iff_of_true (by simp) hex, ?_, ?_⟩
    · intro msg h
      injection h with h2
      exact h2.symm
    · constructor
      · intro h; cases h
      · intro hall
        obtain ⟨r, hr, hf⟩ := hex
        rw [hall r hr] at hf
        cases hf

/-- Witness for C5: one failing test with continue-on-failure true — the
status is failed with message "1 out of 1 accessibility tests failed". -/
theorem claim_C5_witness :
    (finalStatus (runLoop [⟨"u", "g"⟩] 0 true
        (fun i _ => ⟨"u", "g", false, JsonValue.vnull, JsonValue.vnull, [], [], i⟩)).1
      (runLoop [⟨"u", "g"⟩] 0 true
        (fun i _ => ⟨"u", "g", false, JsonValue.vnull, JsonValue.vnull, [], [], i⟩)).2 ≠
        RunStatus.ok ↔
      ∃ r ∈ (runLoop [⟨"u", "g"⟩] 0 true
        (fun i _ => ⟨"u", "g", false, JsonValue.vnull, JsonValue.vnull, [], [], i⟩)).1,
        r.success = false) ∧
    (∀ msg, finalStatus (runLoop [⟨"u", "g"⟩] 0 true
        (fun i _ => ⟨"u", "g", false, JsonValue.vnull, JsonValue.vnull, [], [], i⟩)).1
      (runLoop [⟨"u", "g"⟩] 0 true
        (fun i _ => ⟨"u", "g", false, JsonValue.vnull, JsonValue.vnull, [], [], i⟩)).2 =
        RunStatus.failed msg →
      msg = toString ((runLoop [⟨"u", "g"⟩] 0 true
          (fun i _ => ⟨"u", "g", false, JsonValue.vnull, JsonValue.vnull, [], [], i⟩)).1.length -
          passedCount (runLoop [⟨"u", "g"⟩] 0 true
            (fun i _ => ⟨"u", "g", false, JsonValue.vnull, JsonValue.vnull, [], [], i⟩)).1) ++
        " out of " ++
        toString (runLoop [⟨"u", "g"⟩] 0 true
          (fun i _ => ⟨"u", "g", false, JsonValue.vnull, JsonValue.vnull, [], [], i⟩)).1.length ++
        " accessibility tests failed") ∧
    (finalStatus (runLoop [⟨"u", "g"⟩] 0 true
        (fun i _ => ⟨"u", "g", false, JsonValue.vnull, JsonValue.vnull, [], [], i⟩)).1
      (runLoop [⟨"u", "g"⟩] 0 true
        (fun i _ => ⟨"u", "g", false, JsonValue.vnull, JsonValue.vnull, [], [], i⟩)).2 =
        RunStatus.ok ↔
      ∀ r ∈ (runLoop [⟨"u", "g"⟩] 0 true
        (fun i _ => ⟨"u", "g", false, JsonValue.vnull, JsonValue.vnull, [], [], i⟩)).1,
        r.success = true) :=
  claim_C5_failure_status [⟨"u", "g"⟩] true
    (fun i _ => ⟨"u", "g", false, JsonValue.vnull, JsonValue.vnull, [], [], i⟩)

/-- **C7**: `startLiveRun` and `completeLiveRun` are total (never throw) and
return `none` on any non-OK HTTP status or transport error; the orchestrator
produces the same results, summary counts and exit status regardless of the
dashboard exchanges, and when the returned value is `none` the
`dashboard-url` output is not set. -/
theorem claim_C7_dashboard_never_blocks (tests : List TestCase) (cof : Bool)
    (exec : Nat → TestCase → TestResult)
    (dashboardUrl apiKey : Option String)
    (startHttp completeHttp : Option HttpOutcome) :
    startLiveRun none = none ∧
    (∀ resp : HttpOutcome, resp.ok = false → startLiveRun (some resp) = none) ∧
    (∀ u id, completeLiveRun u id none = none) ∧
    (∀ u id (resp : HttpOutcome), resp.ok = false →
      completeLiveRun u id (some resp) = none) ∧
    ((runPipeline tests cof exec dashboardUrl apiKey startHttp
        completeHttp).totalTests =
      (runPipeline tests cof exec none none none none).totalTests) ∧
    ((runPipeline tests cof exec dashboardUrl apiKey startHttp
        completeHttp).passedTests =
      (runPipeline tests cof exec none none none none).passedTests) ∧
    ((runPipeline tests cof exec dashboardUrl apiKey startHttp
        completeHttp).failedTests =
      (runPipeline tests cof exec none none none none).failedTests) ∧
    ((runPipeline tests cof exec dashboardUrl apiKey startHttp
        completeHttp).status =
      (runPipeline tests cof exec none none none none).status) ∧
    (startLiveRun startHttp = none →
      (runPipeline tests cof exec dashboardUrl apiKey startHttp
        completeHttp).dashboardUrlOut = none) ∧
    ((runPipeline tests cof exec dashboardUrl apiKey startHttp
        completeHttp).dashboardUrlOut ≠ none →
      ∃ resp : HttpOutcome, completeHttp = some resp ∧ resp.ok = true) := by
  refine ⟨rfl, ?_, ?_, ?_, rfl, rfl, rfl, rfl, ?_, ?_⟩
  · intro resp h
    simp [startLiveRun, h]
  · intro u id
    rfl
  · intro u id resp h
    simp [completeLiveRun, h]
  · intro h
    cases dashboardUrl with
    | none => cases apiKey <;> simp [runPipeline]
    | some u =>
      cases apiKey with
      | none => simp [runPipeline]
      | some k => simp [runPipeline, h]
  · intro h
    cases dashboardUrl with
    | none =>
      cases apiKey <;> simp [runPipeline] at h
    | some u =>
      cases apiKey with
      | none => simp [runPipeline] at h
      | some k =>
        cases hl : startLiveRun startHttp with
        | none => simp [runPipeline, hl] at h
        | some id =>
          simp only [runPipeline, hl] at h
          cases completeHttp with
          | none => simp [completeLiveRun] at h
          | some resp =>
            by_cases hok : resp.ok = true
            · exact ⟨resp, rfl, hok⟩
            · rw [Bool.not_eq_true] at hok
              simp [completeLiveRun, hok] at h

/-- Witness for C7: concrete failing dashboard exchanges (transport error on
start, HTTP failure on complete) with one passing test. -/
theorem claim_C7_witness :
    startLiveRun none = none ∧
    (∀ resp : HttpOutcome, resp.ok = false → startLiveRun (some resp) = none) ∧
    (∀ u id, completeLiveRun u id none = none) ∧
    (∀ u id (resp : HttpOutcome), resp.ok = false →
      completeLiveRun u id (some resp) = none) ∧
    ((runPipeline [⟨"u", "g"⟩] true
        (fun i _ => ⟨"u", "g", true, JsonValue.vnull, JsonValue.vnull, [], [], i⟩)
        (some "http://d") (some "k") none
        (some ⟨false, none⟩)).totalTests =
      (runPipeline [⟨"u", "g"⟩] true
        (fun i _ => ⟨"u", "g", true, JsonValue.vnull, JsonValue.vnull, [], [], i⟩)
        none none none none).totalTests) ∧
    ((runPipeline [⟨"u", "g"⟩] true
        (fun i _ => ⟨"u", "g", true, JsonValue.vnull, JsonValue.vnull, [], [], i⟩)
        (some "http://d") (some "k") none
        (some ⟨false, none⟩)).passedTests =
      (runPipeline [⟨"u", "g"⟩] true
        (fun i _ => ⟨"u", "g", true, JsonValue.vnull, JsonValue.vnull, [], [], i⟩)
        none none none none).passedTests) ∧
    ((runPipeline [⟨"u", "g"⟩] true
        (fun i _ => ⟨"u", "g", true, JsonValue.vnull, JsonValue.vnull, [], [], i⟩)
        (some "http://d") (some "k") none
        (some ⟨false, none⟩)).failedTests =
      (runPipeline [⟨"u", "g"⟩] true
        (fun i _ => ⟨"u", "g", true, JsonValue.vnull, JsonValue.vnull, [], [], i⟩)
        none none none none).failedTests) ∧
    ((runPipeline [⟨"u", "g"⟩] true
        (fun i _ => ⟨"u", "g", true, JsonValue.vnull, JsonValue.vnull, [], [], i⟩)
        (some "http://d") (some "k") none
        (some ⟨false, none⟩)).status =
      (runPipeline [⟨"u", "g"⟩] true
        (fun i _ => ⟨"u", "g", true, JsonValue.vnull, JsonValue.vnull, [], [], i⟩)
        none none none none).status) ∧
    (startLiveRun none = none →
      (runPipeline [⟨"u", "g"⟩] true
        (fun i _ => ⟨"u", "g", true, JsonValue.vnull, JsonValue.vnull, [], [], i⟩)
        (some "http://d") (some "k") none
        (some ⟨false, none⟩)).dashboardUrlOut = none) ∧
    ((runPipeline [⟨"u", "g"⟩] true
        (fun i _ => ⟨"u", "g", true, JsonValue.vnull, JsonValue.vnull, [], [], i⟩)
        (some "http://d") (some "k") none
        (some ⟨false, none⟩)).dashboardUrlOut ≠ none →
      ∃ resp : HttpOutcome, (some ⟨false, none⟩ : Option HttpOutcome) =
        some resp ∧ resp.ok = true) :=
  claim_C7_dashboard_never_blocks [⟨"u", "g"⟩] true
    (fun i _ => ⟨"u", "g", true, JsonValue.vnull, JsonValue.vnull, [], [], i⟩)
    (some "http://d") (some "k") none (some ⟨false, none⟩)

theorem stripTrailingSlash_append_slash (u : String) :
    stripTrailingSlash (u ++ "/") = u := by
  unfold stripTrailingSlash
  have hdata : (u ++ "/").data = u.data ++ ['/'] := by
    rw [String.data_append]
  rw [hdata]
  rw [if_pos (by rw [List.getLast?_concat])]
  rw [List.dropLast_concat]

theorem stripTrailingSlash_no_slash (u : String)
    (h : u.data.getLast? ≠ some '/') : stripTrailingSlash u = u := by
  unfold stripTrailingSlash
  rw [if_neg h]

theorem append_slash_getLast (u : String) :
    (u ++ "/").data.getLast? = some '/' := by
  rw [String.data_append]
  exact List.getLast?_concat _

theorem append_slash_assoc (u rest restSlash : String)
    (hdata : restSlash.data = '/' :: rest.data) :
    (u ++ "/") ++ rest = u ++ restSlash := by
  apply String.ext
  rw [String.data_append, String.data_append, String.data_append, hdata]
  simp

/-- **C8**: a single trailing slash on the dashboard URL is tolerated and
handled consistently — the two endpoint URLs and the viewer URL built from
`u` and from `u ++ "/"` are identical. -/
theorem claim_C8_trailing_slash_consistent (u : String) (id : String)
    (h : u.data.getLast? ≠ some '/') :
    startEndpoint (u ++ "/") = startEndpoint u ∧
    completeEndpoint (u ++ "/") = completeEndpoint u ∧
    viewerUrl (u ++ "/") id = viewerUrl u id := by
  refine ⟨?_, ?_, ?_⟩
  · unfold startEndpoint
    rw [if_pos (append_slash_getLast u), if_neg h]
    exact append_slash_assoc u "api/live/start" "/api/live/start" rfl
  · unfold completeEndpoint
    rw [if_pos (append_slash_getLast u), if_neg h]
    exact append_slash_assoc u "api/live/complete" "/api/live/complete" rfl
  · unfold viewerUrl
    rw [stripTrailingSlash_append_slash, stripTrailingSlash_no_slash u h]

/-- Witness for C8: the dashboard URL "http://d" with and without the
trailing slash produces the same three constructed URLs. -/
theorem claim_C8_witness :
    ("http://d" : String).data.getLast? ≠ some '/' ∧
    (startEndpoint ("http://d" ++ "/") = startEndpoint "http://d" ∧
     completeEndpoint ("http://d" ++ "/") = completeEndpoint "http://d" ∧
     viewerUrl ("http://d" ++ "/") "r1" = viewerUrl "http://d" "r1") :=
  ⟨by decide, claim_C8_trailing_slash_consistent "http://d" "r1" (by decide)⟩

/-- **C10**: when a JSON object is successfully extracted and parsed from
subprocess stdout, the TestResult fields are defaulted by JavaScript
truthiness rather than by absence: a present-but-falsy parsed value (e.g.
`reason: ""`, `success: 0`, `error: ""`) is replaced by the default
(`null`, `false`, `null` respectively), and any truthy non-boolean
`success` value (e.g. the number 5) is recorded as a pass. -/
theorem claim_C10_truthy_defaulting (tc : TestCase) (out : SubprocessOutcome)
    (jsonParse : List Char → Option ParsedResult) (duration : Nat)
    (payload : List Char) (p : ParsedResult)
    (hext : extractJson out.stdout = some payload)
    (hp : jsonParse payload = some p) :
    jsTruthy (JsonValue.vstr "") = false ∧
    jsTruthy (JsonValue.vnum 0) = false ∧
    jsTruthy (JsonValue.vnum 5) = true ∧
    (runSingleTest tc out jsonParse duration).success = jsTruthy p.success ∧
    (runSingleTest tc out jsonParse duration).reason =
      jsOr p.reason JsonValue.vnull ∧
    (runSingleTest tc out jsonParse duration).error =
      jsOr p.error JsonValue.vnull ∧
    (jsTruthy p.reason = false →
      (runSingleTest tc out jsonParse duration).reason = JsonValue.vnull) ∧
    (jsTruthy p.error = false →
      (runSingleTest tc out jsonParse duration).error = JsonValue.vnull) ∧
    (runSingleTest tc out jsonParse duration).steps = p.steps.getD [] ∧
    (runSingleTest tc out jsonParse duration).violations =
      p.violations.getD [] := by
  have hres : runSingleTest tc out jsonParse duration =
      { url := tc.url, goal := tc.goal, success := jsTruthy p.success,
        reason := jsOr p.reason JsonValue.vnull,
        error := jsOr p.error JsonValue.vnull,
        steps := p.steps.getD [], violations := p.violations.getD [],
        duration := duration } := by
    unfold runSingleTest
    rw [hext]
    simp only [hp]
  rw [hres]
  refine ⟨by decide, by decide, by decide, rfl, rfl, rfl, ?_, ?_, rfl, rfl⟩
  · intro hfalsy
    simp [jsOr, hfalsy]
  · intro hfalsy
    simp [jsOr, hfalsy]

/-- Witness for C10: a payload whose `success` is the truthy number 5
(recorded as a pass) and whose `reason` and `error` are the present-but-
falsy empty string (replaced by null). -/
theorem claim_C10_witness :
    extractJson "x \x7b\"url\":1\x7d y".data = some "\x7b\"url\":1\x7d".data ∧
    (jsTruthy (JsonValue.vstr "") = false ∧
     jsTruthy (JsonValue.vnum 0) = false ∧
     jsTruthy (JsonValue.vnum 5) = true ∧
     (runSingleTest ⟨"u", "g"⟩ ⟨"x \x7b\"url\":1\x7d y".data, "", 0⟩
        (fun _ => some ⟨JsonValue.vnum 5, JsonValue.vstr "",
          JsonValue.vstr "", none, none⟩) 7).success =
       jsTruthy (JsonValue.vnum 5) ∧
     (runSingleTest ⟨"u", "g"⟩ ⟨"x \x7b\"url\":1\x7d y".data, "", 0⟩
        (fun _ => some ⟨JsonValue.vnum 5, JsonValue.vstr "",
          JsonValue.vstr "", none, none⟩) 7).reason =
       jsOr (JsonValue.vstr "") JsonValue.vnull ∧
     (runSingleTest ⟨"u", "g"⟩ ⟨"x \x7b\"url\":1\x7d y".data, "", 0⟩
        (fun _ => some ⟨JsonValue.vnum 5, JsonValue.vstr "",
          JsonValue.vstr "", none, none⟩) 7).error =
       jsOr (JsonValue.vstr "") JsonValue.vnull ∧
     (jsTruthy (JsonValue.vstr "") = false →
       (runSingleTest ⟨"u", "g"⟩ ⟨"x \x7b\"url\":1\x7d y".data, "", 0⟩
          (fun _ => some ⟨JsonValue.vnum 5, JsonValue.vstr "",
            JsonValue.vstr "", none, none⟩) 7).reason = JsonValue.vnull) ∧
     (jsTruthy (JsonValue.vstr "") = false →
       (runSingleTest ⟨"u", "g"⟩ ⟨"x \x7b\"url\":1\x7d y".data, "", 0⟩
          (fun _ => some ⟨JsonValue.vnum 5, JsonValue.vstr "",
            JsonValue.vstr "", none, none⟩) 7).error = JsonValue.vnull) ∧
     (runSingleTest ⟨"u", "g"⟩ ⟨"x \x7b\"url\":1\x7d y".data, "", 0⟩
        (fun _ => some ⟨JsonValue.vnum 5, JsonValue.vstr "",
          JsonValue.vstr "", none, none⟩) 7).steps =
       (none : Option (List TestStepRecord)).getD [] ∧
     (runSingleTest ⟨"u", "g"⟩ ⟨"x \x7b\"url\":1\x7d y".data, "", 0⟩
        (fun _ => some ⟨JsonValue.vnum 5, JsonValue.vstr "",
          JsonValue.vstr "", none, none⟩) 7).violations =
       (none : Option (List ViolationRecord)).getD []) :=
  ⟨by decide,
    claim_C10_truthy_defaulting ⟨"u", "g"⟩ ⟨"x \x7b\"url\":1\x7d y".data, "", 0⟩
      (fun _ => some ⟨JsonValue.vnum 5, JsonValue.vstr "",
        JsonValue.vstr "", none, none⟩) 7 "\x7b\"url\":1\x7d".data
      ⟨JsonValue.vnum 5, JsonValue.vstr "", JsonValue.vstr "", none, none⟩
      (by decide) rfl⟩

end A11y
